import Mathlib

/-!
# fetchStock: normalisation, CSV serialisation, plotting and the blank image

A shallow embedding of `fetchStock.go`.  The program's four functions
(`fetchStockData`, `saveToCSV`, `plotStockData`, `createBlankPNG`) are
translated statement by statement; the library calls they make (`time`,
`decimal`, `fmt`, `encoding/csv`, `bufio`, `os`, `image`, and the plotting
engine) are modelled after their documented behaviour.
-/

set_option autoImplicit false

namespace FetchStock

/-! ## Numbers: `decimal.Decimal` and `float64` -/

/-- A `decimal.Decimal`: the exact number `value * 10 ^ exp`. -/
structure Decimal where
  value : Int
  exp : Int
deriving DecidableEq, Repr

/-- A `float64` value.  `finite neg mant exp` is `(-1)^neg * mant * 2^exp`
(both zeros are representable: `finite false 0 _` and `finite true 0 _`). -/
inductive Float64 where
  | finite (neg : Bool) (mant : Nat) (exp : Int)
  | inf (neg : Bool)
  | nan
deriving DecidableEq, Repr

/-- Number of binary digits of `n`, by halving at most `fuel` times. -/
def bitLenAux : Nat → Nat → Nat
  | 0, _ => 0
  | fuel + 1, n => if n = 0 then 0 else bitLenAux fuel (n / 2) + 1

/-- Number of binary digits of `n` (`0` for `0`), as `nat.bitLen`. -/
def bitLen (n : Nat) : Nat := bitLenAux n n

/-- Integer nearest to `num / den`, ties going to the even neighbour. -/
def roundHalfEven (num den : Nat) : Nat :=
  let q := num / den
  let r := num % den
  if 2 * r < den then q
  else if den < 2 * r then q + 1
  else if q % 2 = 0 then q else q + 1

/-- Numerator and denominator of `n * 2 ^ k` for an integer exponent `k`. -/
def shift2 (n : Nat) (k : Int) : Nat × Nat :=
  if 0 ≤ k then (n * 2 ^ k.toNat, 1) else (n, 2 ^ (-k).toNat)

/-- The contract of `big.Rat.Float64` on the non-negative quotient `a / b`
(`b > 0`) with sign `neg`: the nearest `float64` (round half to even) and
whether it represents the quotient exactly; a magnitude too large for a
`float64` gives an infinity and `false`. -/
def quotToFloat64 (neg : Bool) (a b : Nat) : Float64 × Bool :=
  if a = 0 then (Float64.finite neg 0 0, true)
  else
    let e0 : Int := (bitLen a : Int) - (bitLen b : Int)
    let below : Bool := decide (a * (shift2 1 e0).2 < b * (shift2 1 e0).1)
    let e : Int := if below then e0 - 1 else e0
    let qe : Int := max (e - 52) (-1074)
    let num := a * (shift2 1 qe).2
    let den := b * (shift2 1 qe).1
    let m := roundHalfEven num den
    if 0 ≤ qe ∧ 2 ^ 1024 ≤ m * 2 ^ qe.toNat then (Float64.inf neg, false)
    else (Float64.finite neg m qe, decide (num % den = 0))

/-- The method `Decimal.Float64`: `d.Rat().Float64()`. -/
def Decimal.Float64 (d : Decimal) : Float64 × Bool :=
  if 0 ≤ d.exp then quotToFloat64 (decide (d.value < 0)) (d.value.natAbs * 10 ^ d.exp.toNat) 1
  else quotToFloat64 (decide (d.value < 0)) d.value.natAbs (10 ^ (-d.exp).toNat)

/-- The conversion `float64(n)` of an `int64`. -/
def float64OfInt (n : Int) : Float64 :=
  (quotToFloat64 (decide (n < 0)) n.natAbs 1).1

/-- Whether a `float64` is neither an infinity nor a NaN. -/
def Float64.isFinite : Float64 → Bool
  | .finite _ _ _ => true
  | _ => false

/-! ## Decimal digits -/

/-- The character of the decimal digit `d`. -/
def digitChar (d : Nat) : Char := Char.ofNat (48 + d % 10)

/-- Decimal digits of `n`, most significant first, using at most `fuel` digits. -/
def natDigitsAux : Nat → Nat → List Char
  | 0, _ => []
  | fuel + 1, n => if n < 10 then [digitChar n] else natDigitsAux fuel (n / 10) ++ [digitChar n]

/-- Decimal digits of `n`, most significant first (`0` gives one digit). -/
def natDigits (n : Nat) : List Char := natDigitsAux (n + 1) n

/-- Pads a digit list with leading zeros to at least `width` characters. -/
def zeroPad (width : Nat) (ds : List Char) : List Char :=
  List.replicate (width - ds.length) '0' ++ ds

/-- The verb `%f` of `fmt.Sprintf` on a `float64`: the exact value rounded
(half to even) to six fractional digits, a minus sign when the sign bit is
set; `+Inf`, `-Inf` and `NaN` for the non-finite values. -/
def sprintfF : Float64 → String
  | .nan => "NaN"
  | .inf false => "+Inf"
  | .inf true => "-Inf"
  | .finite neg m e =>
    let n := roundHalfEven (m * 10 ^ 6 * (shift2 1 e).1) (shift2 1 e).2
    String.mk ((if neg then ['-'] else []) ++ natDigits (n / 10 ^ 6) ++ ['.']
      ++ zeroPad 6 (natDigits (n % 10 ^ 6)))

/-! ## Time -/

/-- A `*time.Location`: the offset, in seconds east of UTC, in force at a
Unix time. -/
structure Location where
  lookup : Int → Int

/-- The location `time.UTC`. -/
def utc : Location := ⟨fun _ => 0⟩

/-- A zone with a constant offset, as `time.FixedZone`. -/
def fixedZone (offset : Int) : Location := ⟨fun _ => offset⟩

/-- A `time.Time` with no sub-second part: an instant and the location it
is presented in. -/
structure Time where
  unix : Int
  loc : Location

/-- The function `time.Unix(sec, 0)`: the instant in the process's local
location (`time.Local`). -/
def timeUnix (localZone : Location) (sec : Int) : Time := ⟨sec, localZone⟩

/-- The method `Time.Unix`. -/
def Time.Unix (t : Time) : Int := t.unix

/-- The method `Time.UTC`: the same instant presented in UTC. -/
def Time.UTC (t : Time) : Time := ⟨t.unix, utc⟩

/-- Year, month and day of the proleptic Gregorian calendar for a number of
days since 1970-01-01. -/
def civilFromDays (days : Int) : Int × Int × Int :=
  let z := days + 719468
  let era := z / 146097
  let doe := z - era * 146097
  let yoe := (doe - doe / 1460 + doe / 36524 - doe / 146096) / 365
  let doy := doe - (365 * yoe + yoe / 4 - yoe / 100)
  let mp := (5 * doy + 2) / 153
  let d := doy - (153 * mp + 2) / 5 + 1
  let m := if mp < 10 then mp + 3 else mp - 9
  let y := yoe + era * 400 + (if m ≤ 2 then 1 else 0)
  (y, m, d)

/-- The method `Time.Date`: the calendar date of the instant in the time's
own location. -/
def Time.Date (t : Time) : Int × Int × Int :=
  civilFromDays ((t.unix + t.loc.lookup t.unix) / 86400)

/-- The helper `appendInt` of package `time`: a sign for negative numbers,
then the magnitude zero-padded to `width`. -/
def appendInt (x : Int) (width : Nat) : List Char :=
  (if x < 0 then ['-'] else []) ++ zeroPad width (natDigits x.natAbs)

/-- The call `t.Format("2006-01-02")`. -/
def Time.Format (t : Time) : String :=
  let ymd := t.Date
  String.mk (appendInt ymd.1 4 ++ ['-'] ++ appendInt ymd.2.1 2 ++ ['-'] ++ appendInt ymd.2.2 2)

/-! ## The remote bar source and `fetchStockData` -/

/-- A Go `error` value as this program sees it: either a value handed over
by a collaborator (the bar iterator, the operating system, the plotting
engine, the PNG decoder), passed on unchanged, or a fresh value built by
`fmt.Errorf` with the given message. -/
inductive GoError (ε : Type) where
  | ext (e : ε)
  | errorf (msg : String)
deriving DecidableEq, Repr

/-- The method `Error()` of a Go error value: its text, which is all a
caller holding the value as a plain `error` can read from it.  `text` gives
the text of the values handed over by collaborators. -/
def GoError.Error {ε : Type} (text : ε → String) : GoError ε → String
  | GoError.ext e => text e
  | GoError.errorf msg => msg

/-- The fields of a `finance.ChartBar` that the program reads. -/
structure ChartBar where
  Timestamp : Int
  Close : Decimal
deriving DecidableEq, Repr

/-- The request `chart.Params`. -/
structure Params where
  Symbol : String
  Interval : String
deriving DecidableEq, Repr

/-- A `chart.Iter` positioned at its start: the bars that successive
`Next`/`Bar` calls yield before `Next` reports `false`, and the value `Err`
reports after that. -/
structure Iter (ε : Type) where
  bars : List ChartBar
  err : Option ε

/-- A record `StockData`: date and closing price. -/
structure StockData where
  Date : Time
  Close : Float64

/-- The body of `for iter.Next() { ... }`, one iteration per bar yielded:
the bar is converted and appended to `data`. -/
def fetchLoop (localZone : Location) : List ChartBar → List StockData → List StockData
  | [], data => data
  | bar :: rest, data =>
    let t := timeUnix localZone bar.Timestamp
    let closeVal := bar.Close.Float64.1
    fetchLoop localZone rest (data ++ [{ Date := t, Close := closeVal }])

/-- The function `fetchStockData`.  `chartGet` is `chart.Get`, `localZone`
the process's `time.Local`.  The first component is the returned slice
(`none` is the nil slice), the second the returned error (`none` is nil). -/
def fetchStockData {ε : Type} (chartGet : Params → Iter ε) (localZone : Location)
    (symbol : String) : Option (List StockData) × Option (GoError ε) :=
  let params : Params := { Symbol := symbol, Interval := "1d" }
  let iter := chartGet params
  let data := fetchLoop localZone iter.bars []
  match iter.err with
  | some err => (none, some (GoError.ext err))
  | none =>
    if data.length = 0 then (none, some (GoError.errorf ("no data found for " ++ symbol)))
    else (some data, none)

/-- A close price is convertible when `Decimal.Float64` yields a finite
`float64` for it. -/
def convertible (d : Decimal) : Bool := d.Float64.1.isFinite

/-- The dates of a series never go back: every point is at or after all
points before it. -/
def datesNonDecreasing (data : List StockData) : Prop :=
  List.Pairwise (fun a b => a.Date.Unix ≤ b.Date.Unix) data

/-- The point `fetchStockData` builds from one bar. -/
def pointOfBar (localZone : Location) (bar : ChartBar) : StockData :=
  { Date := timeUnix localZone bar.Timestamp, Close := bar.Close.Float64.1 }

/-! ## Files -/

/-- The file system as explicit state: the files that exist (name and bytes,
first match wins), how many more bytes the device accepts (`none`: no
limit), the error a write gets once the device is full, and the errors
`os.Create` and `os.Open` report for a name (`none`: the call succeeds). -/
structure FS (ε : Type) where
  files : List (String × List Nat)
  room : Option Nat
  writeErr : ε
  createErr : String → Option ε
  openErr : String → Option ε

/-- The bytes of the file `name`, if it exists. -/
def FS.read {ε : Type} (fs : FS ε) (name : String) : Option (List Nat) :=
  (fs.files.find? (fun f => f.1 == name)).map (fun f => f.2)

/-- Whether a file `name` exists. -/
def FS.hasFile {ε : Type} (fs : FS ε) (name : String) : Bool :=
  (fs.read name).isSome

/-- Replaces the bytes of `name`, creating the file if needed. -/
def FS.put {ε : Type} (fs : FS ε) (name : String) (bytes : List Nat) : FS ε :=
  { fs with files := (name, bytes) :: fs.files.filter (fun f => !(f.1 == name)) }

/-- The call `os.Create(name)`: the file exists and is empty afterwards,
unless the call fails. -/
def FS.Create {ε : Type} (fs : FS ε) (name : String) : FS ε × Option ε :=
  match fs.createErr name with
  | some e => (fs, some e)
  | none => (fs.put name [], none)

/-- The call `file.Write(p)` on the open file `name`: the bytes are appended;
when the device has room for only part of them, that part is appended and
the write fails.  Returns the number of bytes written and the error. -/
def FS.Write {ε : Type} (fs : FS ε) (name : String) (p : List Nat) : FS ε × Nat × Option ε :=
  let old := (fs.read name).getD []
  match fs.room with
  | none => (fs.put name (old ++ p), p.length, none)
  | some k =>
    if p.length ≤ k then
      ({ fs.put name (old ++ p) with room := some (k - p.length) }, p.length, none)
    else
      ({ fs.put name (old ++ p.take k) with room := some 0 }, k, some fs.writeErr)

/-- The call `os.Open(name)`: fails with the error the system reports for
the name, or when no such file exists (`noFile` stands for that error). -/
def FS.Open {ε : Type} (fs : FS ε) (noFile : ε) (name : String) : Option ε :=
  match fs.openErr name with
  | some e => some e
  | none => if fs.hasFile name then none else some noFile

/-- The call `os.Remove(name)`, with the semantics of POSIX systems, where a
file that is still open can be removed. -/
def FS.Remove {ε : Type} (fs : FS ε) (name : String) : FS ε :=
  { fs with files := fs.files.filter (fun f => !(f.1 == name)) }

/-! ## `bufio.Writer` and `csv.Writer` -/

/-- UTF-8 bytes of a character. -/
def utf8Char (c : Char) : List Nat :=
  let n := c.toNat
  if n < 128 then [n]
  else if n < 2048 then [192 + n / 64, 128 + n % 64]
  else if n < 65536 then [224 + n / 4096, 128 + n / 64 % 64, 128 + n % 64]
  else [240 + n / 262144, 128 + n / 4096 % 64, 128 + n / 64 % 64, 128 + n % 64]

/-- UTF-8 bytes of a string. -/
def utf8 (s : String) : List Nat := s.data.flatMap utf8Char

/-- The default buffer size of a `bufio.Writer`. -/
def bufSize : Nat := 4096

/-- The `bufio.Writer` inside a `csv.Writer`: the file it writes to, the
bytes buffered and not yet written, and the first write error met, which it
keeps. -/
structure Writer (ε : Type) where
  file : String
  buf : List Nat
  err : Option ε

/-- The call `csv.NewWriter(file)`. -/
def newWriter {ε : Type} (file : String) : Writer ε := { file := file, buf := [], err := none }

/-- The method `bufio.Writer.Flush`: writes the buffered bytes to the file;
on a failed write keeps the unwritten bytes and records the error. -/
def Writer.Flush {ε : Type} (w : Writer ε) (fs : FS ε) : Writer ε × FS ε :=
  match w.err with
  | some _ => (w, fs)
  | none =>
    if w.buf.length = 0 then (w, fs)
    else
      match fs.Write w.file w.buf with
      | (fs1, n, some e) => ({ w with buf := w.buf.drop n, err := some e }, fs1)
      | (fs1, _, none) => ({ w with buf := [] }, fs1)

/-- The loop of `bufio.Writer.WriteString`: while the bytes do not fit in
the free part of the buffer and no error was met, fill the buffer and flush;
then buffer the rest.  Once an error is recorded nothing more is written. -/
def Writer.writeLoop {ε : Type} : Nat → List Nat → Writer ε → FS ε → Writer ε × FS ε
  | 0, _, w, fs => (w, fs)
  | fuel + 1, s, w, fs =>
    if bufSize - w.buf.length < s.length ∧ w.err.isNone then
      let n := bufSize - w.buf.length
      let wf := Writer.Flush { w with buf := w.buf ++ s.take n } fs
      Writer.writeLoop fuel (s.drop n) wf.1 wf.2
    else if w.err.isSome then (w, fs)
    else ({ w with buf := w.buf ++ s }, fs)

/-- The method `bufio.Writer.WriteString` on the bytes of a string. -/
def Writer.WriteString {ε : Type} (w : Writer ε) (fs : FS ε) (s : List Nat) : Writer ε × FS ε :=
  Writer.writeLoop (s.length + 2) s w fs

/-- The function `unicode.IsSpace`. -/
def isSpace (c : Char) : Bool :=
  let n := c.toNat
  (9 ≤ n ∧ n ≤ 13) ∨ n = 32 ∨ n = 133 ∨ n = 160 ∨ n = 5760 ∨ (8192 ≤ n ∧ n ≤ 8202)
    ∨ n = 8232 ∨ n = 8233 ∨ n = 8239 ∨ n = 8287 ∨ n = 12288

/-- The method `csv.Writer.fieldNeedsQuotes` for the comma delimiter. -/
def fieldNeedsQuotes (field : String) : Bool :=
  if field.data = [] then false
  else if field.data = ['\\', '.'] then true
  else if field.data.any (fun c => c = '\n' ∨ c = '\r' ∨ c = '"' ∨ c = ',') then true
  else isSpace (field.data.headD ' ')

/-- The text `csv.Writer.Write` emits for one field: the field itself, or,
when it needs quotes, the field between quotes with every quote doubled. -/
def csvField (field : String) : List Char :=
  if fieldNeedsQuotes field then
    ['"'] ++ field.data.flatMap (fun c => if c = '"' then ['"', '"'] else [c]) ++ ['"']
  else field.data

/-- The text `csv.Writer.Write` emits for the fields of a record after the
first: each preceded by a comma. -/
def csvRest : List String → List Char
  | [] => []
  | f :: fs => [','] ++ csvField f ++ csvRest fs

/-- The text of one record: fields separated by commas, then a newline. -/
def csvRecord : List String → List Char
  | [] => ['\n']
  | f :: fs => csvField f ++ csvRest fs ++ ['\n']

/-- The method `csv.Writer.Write`: the record's text goes to the buffered
writer.  Its error result is not part of the state; callers that ignore it
lose it. -/
def Writer.Write {ε : Type} (w : Writer ε) (fs : FS ε) (record : List String) :
    Writer ε × FS ε :=
  Writer.WriteString w fs (utf8 (String.mk (csvRecord record)))

/-! ## `saveToCSV` -/

/-- The loop `for _, d := range data { writer.Write(...) }` of `saveToCSV`. -/
def writeRows {ε : Type} : List StockData → Writer ε → FS ε → Writer ε × FS ε
  | [], w, fs => (w, fs)
  | d :: rest, w, fs =>
    let wf := Writer.Write w fs [d.Date.Format, sprintfF d.Close]
    writeRows rest wf.1 wf.2

/-- The function `saveToCSV`: the file system afterwards and the returned
error.  The deferred `writer.Flush()` and `file.Close()` run after the
result `nil` has been fixed. -/
def saveToCSV {ε : Type} (fs : FS ε) (symbol : String) (data : List StockData) :
    FS ε × Option (GoError ε) :=
  let filename := symbol ++ "_stock_data.csv"
  match fs.Create filename with
  | (fs0, some err) => (fs0, some (GoError.ext err))
  | (fs0, none) =>
    let writer : Writer ε := newWriter filename
    let wf1 := Writer.Write writer fs0 ["Date", "Close"]
    let wf2 := writeRows data wf1.1 wf1.2
    let wf3 := Writer.Flush wf2.1 wf2.2
    (wf3.2, none)

/-- The table the specification describes: the header `Date,Close`, then
one line per point with the date as `YYYY-MM-DD`, a comma and the close
printed with `%f`. -/
def csvText (data : List StockData) : String :=
  "Date,Close\n" ++ String.join (data.map (fun d => d.Date.Format ++ "," ++ sprintfF d.Close ++ "\n"))

/-- A file system with no file, no limit and no failing call. -/
def emptyFS : FS String :=
  { files := [], room := none, writeErr := "no space left on device",
    createErr := fun _ => none, openErr := fun _ => none }

/-- A file system whose device is full: every write fails. -/
def fullFS : FS String := { emptyFS with room := some 0 }

/-- The series of the specification's scenario: 2024-01-02 at 100.123456 and
2024-01-03 at 101.654321, as `fetchStockData` builds it in UTC. -/
def scenarioSeries : List StockData :=
  [pointOfBar utc ⟨1704153600, ⟨100123456, -6⟩⟩, pointOfBar utc ⟨1704240000, ⟨101654321, -6⟩⟩]

/-! ## The plotting engine and `plotStockData` -/

/-- The settings of a `plot.Plot` that the program touches: the title, the
axis labels, the lines added (legend name and points) and the date layout of
the X tick marker once set. -/
structure Plot where
  Title : String
  XLabel : String
  YLabel : String
  lines : List (String × List (Float64 × Float64))
  xTimeTicks : Option String
deriving DecidableEq, Repr

/-- The collaborators of `plotStockData`: the error `plotter` reports for a
NaN or infinite coordinate, the PNG bytes the plotting engine draws for a
plot on a canvas of the given size in inches, the PNG decoder, and the error
`os.Open` reports for a missing file.  `ι` is the type of decoded images. -/
structure Engine (ε ι : Type) where
  badValue : ε
  draw : Plot → Nat → Nat → List Nat
  decode : List Nat → Except ε ι
  noFile : ε

/-- The function `plotutil.AddLinePoints` for one named point list: the
points are copied by `plotter.CopyXYs`, which checks every coordinate with
`CheckFloats` and rejects a NaN or an infinity; it has no test on the number
of points, so any list of finite points, the empty one included, joins the
plot as a line. -/
def addLinePoints {ε ι : Type} (eng : Engine ε ι) (p : Plot) (name : String)
    (pts : List (Float64 × Float64)) : Except ε Plot :=
  if pts.any (fun xy => !xy.1.isFinite || !xy.2.isFinite) then Except.error eng.badValue
  else Except.ok { p with lines := p.lines ++ [(name, pts)] }

/-- The method `Plot.Save(w, h, file)`: creates the file, then writes the
drawing to it. -/
def Plot.Save {ε ι : Type} (eng : Engine ε ι) (p : Plot) (fs : FS ε) (w h : Nat)
    (file : String) : FS ε × Option ε :=
  match fs.Create file with
  | (fs0, some e) => (fs0, some e)
  | (fs0, none) =>
    let r := fs0.Write file (eng.draw p w h)
    (r.1, r.2.2)

/-- The function `plotStockData`: the file system afterwards, the returned
image (`none` is nil) and the returned error. -/
def plotStockData {ε ι : Type} (eng : Engine ε ι) (fs : FS ε) (symbol : String)
    (data : List StockData) : FS ε × Option ι × Option (GoError ε) :=
  let p : Plot := { Title := symbol ++ " Stock Price", XLabel := "Date",
                    YLabel := "Price (USD)", lines := [], xTimeTicks := none }
  let pts := data.map (fun d => (float64OfInt d.Date.Unix, d.Close))
  match addLinePoints eng p (symbol ++ " Closing Price") pts with
  | Except.error err => (fs, none, some (GoError.ext err))
  | Except.ok p1 =>
    let p2 := { p1 with xTimeTicks := some "2006-01-02" }
    let imgFile := symbol ++ "_stock_plot.png"
    match Plot.Save eng p2 fs 8 4 imgFile with
    | (fs1, some err) => (fs1, none, some (GoError.ext err))
    | (fs1, none) =>
      match fs1.Open eng.noFile imgFile with
      | some err => (fs1, none, some (GoError.ext err))
      | none =>
        match eng.decode ((fs1.read imgFile).getD []) with
        | Except.error err => (fs1, none, some (GoError.ext err))
        | Except.ok img => (fs1.Remove imgFile, some img, none)

/-- A stand-in engine: the drawing is the PNG signature followed by the
canvas size and the number of points of each line; decoding accepts exactly
the byte strings that start with the PNG signature and returns the rest. -/
def sampleEngine : Engine String (List Nat) :=
  { badValue := "plotter: NaN or infinite data point",
    draw := fun p w h => [137, 80, 78, 71, 13, 10, 26, 10, w, h] ++ p.lines.map (fun l => l.2.length),
    decode := fun bytes =>
      if bytes.take 8 = [137, 80, 78, 71, 13, 10, 26, 10] then Except.ok (bytes.drop 8)
      else Except.error "png: invalid format: not a PNG file",
    noFile := "no such file or directory" }

/-- The stand-in engine with a decoder that rejects every file. -/
def rejectingEngine : Engine String (List Nat) :=
  { sampleEngine with decode := fun _ => Except.error "png: invalid format: not a PNG file" }

/-- A file system in which `os.Open` fails for `AAPL_stock_plot.png`. -/
def noOpenFS : FS String :=
  { emptyFS with
    openErr := fun name => if name = "AAPL_stock_plot.png" then some "too many open files" else none }

/-- A series of one point. -/
def onePointSeries : List StockData := [pointOfBar utc ⟨1704153600, ⟨100123456, -6⟩⟩]

/-! ## The blank image -/

/-- An `image.Point`. -/
structure Point where
  X : Int
  Y : Int
deriving DecidableEq, Repr

/-- An `image.Rectangle`: the points with `Min.X ≤ x < Max.X` and
`Min.Y ≤ y < Max.Y`. -/
structure Rectangle where
  Min : Point
  Max : Point
deriving DecidableEq, Repr

/-- The function `image.Rect`: the rectangle with the given corners, the
coordinates swapped where needed so that it is well-formed. -/
def imageRect (x0 y0 x1 y1 : Int) : Rectangle :=
  { Min := ⟨min x0 x1, min y0 y1⟩, Max := ⟨max x0 x1, max y0 y1⟩ }

/-- The method `Rectangle.Dx`: the width. -/
def Rectangle.Dx (r : Rectangle) : Int := r.Max.X - r.Min.X

/-- The method `Rectangle.Dy`: the height. -/
def Rectangle.Dy (r : Rectangle) : Int := r.Max.Y - r.Min.Y

/-- A `color.RGBA`: four 8-bit channels. -/
structure Color where
  R : Nat
  G : Nat
  B : Nat
  A : Nat
deriving DecidableEq, Repr

/-- A `color.Gray16`. -/
structure Gray16 where
  Y : Nat
deriving DecidableEq, Repr

/-- The colour `color.White`. -/
def colorWhite : Gray16 := ⟨65535⟩

/-- The conversion `color.RGBAModel.Convert` of a `Gray16`: its 16-bit
channels `(Y, Y, Y, 0xffff)` cut to their high bytes. -/
def rgbaModelConvert (c : Gray16) : Color :=
  { R := c.Y / 256 % 256, G := c.Y / 256 % 256, B := c.Y / 256 % 256, A := 65535 / 256 % 256 }

/-- An `image.RGBA`: the pixel bytes, four per pixel, rows one after the
other, `Stride` bytes per row. -/
structure RGBA where
  Pix : List Nat
  Stride : Int
  Rect : Rectangle
deriving DecidableEq, Repr

/-- The function `image.NewRGBA`: all bytes zero. -/
def NewRGBA (r : Rectangle) : RGBA :=
  { Pix := List.replicate (4 * r.Dx * r.Dy).toNat 0, Stride := 4 * r.Dx, Rect := r }

/-- The method `RGBA.PixOffset`. -/
def RGBA.PixOffset (img : RGBA) (x y : Int) : Int :=
  (y - img.Rect.Min.Y) * img.Stride + (x - img.Rect.Min.X) * 4

/-- Whether the point `(x, y)` lies in the rectangle. -/
def Rectangle.contains (r : Rectangle) (x y : Int) : Bool :=
  r.Min.X ≤ x ∧ x < r.Max.X ∧ r.Min.Y ≤ y ∧ y < r.Max.Y

/-- The method `RGBA.Set`: outside the bounds nothing happens; inside, the
four bytes of the pixel take the colour converted to RGBA. -/
def RGBA.Set (img : RGBA) (x y : Int) (c : Gray16) : RGBA :=
  if img.Rect.contains x y then
    let i := (img.PixOffset x y).toNat
    let c1 := rgbaModelConvert c
    { img with Pix := (((img.Pix.set i c1.R).set (i + 1) c1.G).set (i + 2) c1.B).set (i + 3) c1.A }
  else img

/-- The method `RGBA.RGBAAt`: the colour of a pixel, the zero colour
outside the bounds. -/
def RGBA.RGBAAt (img : RGBA) (x y : Int) : Color :=
  if img.Rect.contains x y then
    let i := (img.PixOffset x y).toNat
    { R := img.Pix.getD i 0, G := img.Pix.getD (i + 1) 0, B := img.Pix.getD (i + 2) 0,
      A := img.Pix.getD (i + 3) 0 }
  else ⟨0, 0, 0, 0⟩

/-- The inner loop `for y := 0; y < n; y++ { img.Set(x, y, color.White) }`. -/
def fillColumn (n : Nat) (img : RGBA) (x : Nat) : RGBA :=
  (List.range n).foldl (fun im y => im.Set x y colorWhite) img

/-- The loops `for x := 0; x < n; x++ { for y := 0; y < n; y++ { ... } }`. -/
def fillWhite (n : Nat) (img : RGBA) : RGBA :=
  (List.range n).foldl (fillColumn n) img

/-- The raster `createBlankPNG` builds before encoding it. -/
def createBlankImage : RGBA := fillWhite 100 (NewRGBA (imageRect 0 0 100 100))

/-- The function `createBlankPNG`; `encode` is `png.Encode` into a fresh
buffer. -/
def createBlankPNG (encode : RGBA → List Nat) : List Nat := encode createBlankImage

/-- The function `imageToPNG`. -/
def imageToPNG {ι : Type} (encode : ι → List Nat) (img : ι) : List Nat := encode img

/-! ## Sample inputs -/

/-- Three bars, then a source error. -/
def failingSource : Params → Iter String := fun _ =>
  { bars := [⟨1704153600, ⟨100123456, -6⟩⟩, ⟨1704240000, ⟨101654321, -6⟩⟩,
             ⟨1704326400, ⟨102000000, -6⟩⟩],
    err := some "connection reset" }

/-- A source that yields nothing and reports no error. -/
def emptySource : Params → Iter String := fun _ => { bars := [], err := none }

/-- Two valid bars, the later day first. -/
def reversedSource : Params → Iter String := fun _ =>
  { bars := [⟨1704240000, ⟨101654321, -6⟩⟩, ⟨1704153600, ⟨100123456, -6⟩⟩], err := none }

/-- Two valid bars in chronological order (2024-01-02 and 2024-01-03, 00:00 UTC). -/
def twoBarSource : Params → Iter String := fun _ =>
  { bars := [⟨1704153600, ⟨100123456, -6⟩⟩, ⟨1704240000, ⟨101654321, -6⟩⟩], err := none }

/-- Three bars, the middle one with a close of `10^400`, beyond any `float64`. -/
def hugeCloseSource : Params → Iter String := fun _ =>
  { bars := [⟨1704153600, ⟨100123456, -6⟩⟩, ⟨1704240000, ⟨1, 400⟩⟩,
             ⟨1704326400, ⟨101654321, -6⟩⟩],
    err := none }

/-- The `YYYY-MM-DD` string of the UTC calendar date of a Unix time. -/
def utcDateString (sec : Int) : String := (Time.UTC ⟨sec, utc⟩).Format

/-- A source that yields nothing and fails with an error whose text is the
very text of the no-data error for the requested symbol. -/
def lookAlikeSource : Params → Iter String := fun p =>
  { bars := [], err := some ("no data found for " ++ p.Symbol) }

/-- The series `fetchStockData` builds in UTC from three bars whose middle
close is `10^400`. -/
def infCloseSeries : List StockData :=
  [pointOfBar utc ⟨1704153600, ⟨100123456, -6⟩⟩, pointOfBar utc ⟨1704240000, ⟨1, 400⟩⟩,
   pointOfBar utc ⟨1704326400, ⟨101654321, -6⟩⟩]

/-- A one-point series dated 00:00 UTC on the first day of the year 10000. -/
def farDateSeries : List StockData := [pointOfBar utc ⟨253402300800, ⟨1, 0⟩⟩]

/-! ## Vocabulary of the proofs -/

/-- The writer `w` and the file system `fs` are in step on the file `file`:
no error so far, no limit on the device, and the bytes already in the file
followed by the buffered bytes are `content`. -/
def InStep {ε : Type} (w : Writer ε) (fs : FS ε) (file : String) (content : List Nat) : Prop :=
  w.file = file ∧ w.err = none ∧ fs.room = none ∧
    ∃ pre, fs.read file = some pre ∧ pre ++ w.buf = content

/-- A character that occurs in the dates and prices this program prints:
a digit, a sign, the decimal point, or a letter of `Inf` and `NaN`. -/
def plainChar (c : Char) : Bool :=
  let n := c.toNat
  (48 ≤ n ∧ n ≤ 57) ∨ n = 45 ∨ n = 46 ∨ n = 43 ∨ n = 73 ∨ n = 110 ∨ n = 102 ∨ n = 78 ∨ n = 97

/-- A decimal digit character. -/
def isDigitChar (c : Char) : Bool := 48 ≤ c.toNat ∧ c.toNat ≤ 57

/-- The plot `plotStockData` hands to `Save` for a series the plotter
accepts. -/
def stockPlot (symbol : String) (data : List StockData) : Plot :=
  { Title := symbol ++ " Stock Price", XLabel := "Date", YLabel := "Price (USD)",
    lines := [(symbol ++ " Closing Price",
      data.map (fun d => (float64OfInt d.Date.Unix, d.Close)))],
    xTimeTicks := some "2006-01-02" }

/-- The 100 by 100 image `img` has its geometry intact and every byte whose
index satisfies `done` already equal to 255. -/
def Painted (img : RGBA) (done : Nat → Prop) : Prop :=
  img.Stride = 400 ∧ img.Rect = imageRect 0 0 100 100 ∧ img.Pix.length = 40000 ∧
    ∀ j, j < 40000 → done j → img.Pix[j]? = some 255

/-- The number a list of decimal digit characters denotes. -/
def digitsValue (cs : List Char) : Nat :=
  cs.foldl (fun acc c => 10 * acc + (c.toNat - 48)) 0

/-! ## Facts about the helpers that recurse on fuel -/

theorem digitChar_toNat (d : Nat) : (digitChar d).toNat = 48 + d % 10 := by
  have h : d % 10 < 10 := Nat.mod_lt _ (by decide)
  unfold digitChar
  generalize d % 10 = k at h
  interval_cases k <;> decide

theorem digitsValue_append_singleton (cs : List Char) (c : Char) :
    digitsValue (cs ++ [c]) = 10 * digitsValue cs + (c.toNat - 48) := by
  simp [digitsValue, List.foldl_append]

theorem digitsValue_natDigitsAux (fuel : Nat) :
    ∀ n, n < fuel → digitsValue (natDigitsAux fuel n) = n := by
  induction fuel with
  | zero => intro n h; omega
  | succ fuel ih =>
    intro n h
    unfold natDigitsAux
    split
    · simp only [digitsValue, List.foldl_cons, List.foldl_nil, digitChar_toNat]
      omega
    · rw [digitsValue_append_singleton, ih (n / 10) (by omega), digitChar_toNat]
      omega

/-- The fuel of `natDigits` is enough: the digits denote the number. -/
theorem digitsValue_natDigits (n : Nat) : digitsValue (natDigits n) = n :=
  digitsValue_natDigitsAux _ n (Nat.lt_succ_self n)

theorem bitLenAux_spec (fuel : Nat) :
    ∀ n, n ≤ fuel → n < 2 ^ bitLenAux fuel n ∧ (n ≠ 0 → 2 ^ (bitLenAux fuel n - 1) ≤ n) := by
  induction fuel with
  | zero =>
    intro n h
    have : n = 0 := by omega
    subst this
    simp [bitLenAux]
  | succ fuel ih =>
    intro n h
    unfold bitLenAux
    split
    · rename_i h0
      subst h0
      simp
    · rename_i h0
      obtain ⟨h1, h2⟩ := ih (n / 2) (by omega)
      refine ⟨?_, fun _ => ?_⟩
      · rw [pow_succ]
        omega
      · simp only [Nat.add_sub_cancel]
        by_cases hn : n / 2 = 0
        · have : bitLenAux fuel (n / 2) = 0 := by
            rw [hn]
            cases fuel <;> simp [bitLenAux]
          rw [this]
          simp
          omega
        · have h3 := h2 hn
          have hpos : 0 < bitLenAux fuel (n / 2) := by
            by_contra hc
            have : bitLenAux fuel (n / 2) = 0 := by omega
            rw [this] at h1
            simp at h1
            exact hn h1
          have : bitLenAux fuel (n / 2) = (bitLenAux fuel (n / 2) - 1) + 1 := by omega
          rw [this, pow_succ]
          omega

/-- The fuel of `bitLen` is enough: a positive `n` lies between
`2 ^ (bitLen n - 1)` and `2 ^ bitLen n`. -/
theorem bitLen_spec (n : Nat) : n < 2 ^ bitLen n ∧ (n ≠ 0 → 2 ^ (bitLen n - 1) ≤ n) :=
  bitLenAux_spec n n (le_refl n)

theorem civilFromDays_month_day (days : Int) :
    1 ≤ (civilFromDays days).2.1 ∧ (civilFromDays days).2.1 ≤ 12 ∧
    1 ≤ (civilFromDays days).2.2 ∧ (civilFromDays days).2.2 ≤ 31 := by
  simp only [civilFromDays]
  split <;> omega

/-! ## Facts about `fetchStockData` -/

theorem fetchLoop_eq_append_map (localZone : Location) (bars : List ChartBar)
    (data : List StockData) :
    fetchLoop localZone bars data = data ++ bars.map (pointOfBar localZone) := by
  induction bars generalizing data with
  | nil => simp [fetchLoop]
  | cons bar rest ih => simp [fetchLoop, ih, pointOfBar]

theorem fetchLoop_nil_eq_map (localZone : Location) (bars : List ChartBar) :
    fetchLoop localZone bars [] = bars.map (pointOfBar localZone) := by
  simp [fetchLoop_eq_append_map]

theorem fetchStockData_of_no_error {ε : Type} (chartGet : Params → Iter ε)
    (localZone : Location) (symbol : String)
    (herr : (chartGet ⟨symbol, "1d"⟩).err = none)
    (hne : (chartGet ⟨symbol, "1d"⟩).bars ≠ []) :
    fetchStockData chartGet localZone symbol
      = (some ((chartGet ⟨symbol, "1d"⟩).bars.map (pointOfBar localZone)), none) := by
  simp [fetchStockData, herr, fetchLoop_nil_eq_map, hne]

/-- C1. Whenever the bar source reports an error, after any number of bars,
`fetchStockData` returns that very error and the nil slice, whatever was
accumulated. -/
theorem fetchStockData_source_error {ε : Type} (chartGet : Params → Iter ε)
    (localZone : Location) (symbol : String) (e : ε)
    (herr : (chartGet ⟨symbol, "1d"⟩).err = some e) :
    fetchStockData chartGet localZone symbol = (none, some (GoError.ext e)) := by
  simp [fetchStockData, herr]

/-- A source that fails after three bars: the error comes back with the nil slice. -/
theorem fetchStockData_source_error_witness :
    (failingSource ⟨"AAPL", "1d"⟩).bars.length = 3 ∧
    fetchStockData failingSource utc "AAPL" = (none, some (GoError.ext "connection reset")) :=
  ⟨rfl, fetchStockData_source_error failingSource utc "AAPL" "connection reset" rfl⟩

/-- Against C2 as stated: a source that fails with an error reading `no data
found for AAPL` and a source that merely yields nothing lead `fetchStockData`
to the same nil slice and to errors with the same text, so the caller, who
holds a plain `error`, cannot tell the no-data case from the failed source. -/
theorem fetchStockData_no_data_counterexample :
    (lookAlikeSource ⟨"AAPL", "1d"⟩).err = some "no data found for AAPL" ∧
    (emptySource ⟨"AAPL", "1d"⟩).bars = [] ∧ (emptySource ⟨"AAPL", "1d"⟩).err = none ∧
    (fetchStockData lookAlikeSource utc "AAPL").1.isNone = true ∧
    (fetchStockData emptySource utc "AAPL").1.isNone = true ∧
    (fetchStockData lookAlikeSource utc "AAPL").2.map (GoError.Error id)
      = some "no data found for AAPL" ∧
    (fetchStockData emptySource utc "AAPL").2.map (GoError.Error id)
      = some "no data found for AAPL" := by
  decide!

/-- C2 (amended). A source that yields no bar and reports no error makes
`fetchStockData` return the nil slice with an error whose text is `no data
found for <symbol>`; a nil error always comes with a non-empty series; and
the error returned for an empty source reads the same as the error returned
for a failed source exactly when the source's own error has that text: the
no-data error has no type of its own and is told apart by its text alone. -/
theorem fetchStockData_no_data {ε : Type} :
    (∀ (chartGet : Params → Iter ε) (localZone : Location) (symbol : String),
      (chartGet ⟨symbol, "1d"⟩).bars = [] → (chartGet ⟨symbol, "1d"⟩).err = none →
      fetchStockData chartGet localZone symbol
        = (none, some (GoError.errorf ("no data found for " ++ symbol)))) ∧
    (∀ (chartGet : Params → Iter ε) (localZone : Location) (symbol : String),
      (fetchStockData chartGet localZone symbol).2 = none →
      ∃ data, (fetchStockData chartGet localZone symbol).1 = some data ∧ data ≠ []) ∧
    (∀ (text : ε → String) (emptyGet failedGet : Params → Iter ε) (localZone : Location)
      (symbol : String) (e : ε),
      (emptyGet ⟨symbol, "1d"⟩).bars = [] → (emptyGet ⟨symbol, "1d"⟩).err = none →
      (failedGet ⟨symbol, "1d"⟩).err = some e →
      ((fetchStockData emptyGet localZone symbol).2.map (GoError.Error text)
          = (fetchStockData failedGet localZone symbol).2.map (GoError.Error text)
        ↔ text e = "no data found for " ++ symbol)) := by
  have hempty : ∀ (chartGet : Params → Iter ε) (localZone : Location) (symbol : String),
      (chartGet ⟨symbol, "1d"⟩).bars = [] → (chartGet ⟨symbol, "1d"⟩).err = none →
      fetchStockData chartGet localZone symbol
        = (none, some (GoError.errorf ("no data found for " ++ symbol))) := by
    intro chartGet localZone symbol hb he
    simp [fetchStockData, hb, he, fetchLoop]
  refine ⟨hempty, ?_, ?_⟩
  · intro chartGet localZone symbol h
    unfold fetchStockData at h ⊢
    cases he : (chartGet ⟨symbol, "1d"⟩).err with
    | some e => simp [he] at h
    | none =>
      simp only [he] at h ⊢
      by_cases hl : (fetchLoop localZone (chartGet ⟨symbol, "1d"⟩).bars []).length = 0
      · simp [hl] at h
      · refine ⟨fetchLoop localZone (chartGet ⟨symbol, "1d"⟩).bars [], ?_, ?_⟩
        · simp [hl]
        · intro hnil
          exact hl (by simp [hnil])
  · intro text emptyGet failedGet localZone symbol e hb he hf
    rw [hempty emptyGet localZone symbol hb he]
    have hfail : fetchStockData failedGet localZone symbol = (none, some (GoError.ext e)) := by
      simp [fetchStockData, hf]
    rw [hfail]
    simp only [Option.map_some', GoError.Error, Option.some.injEq]
    exact eq_comm

/-- The empty source: the no-data error for the symbol `ZZZZ`. -/
theorem fetchStockData_no_data_witness :
    fetchStockData emptySource utc "ZZZZ"
      = (none, some (GoError.errorf "no data found for ZZZZ")) :=
  (@fetchStockData_no_data String).1 emptySource utc "ZZZZ" rfl rfl

theorem datesNonDecreasing_map_pointOfBar (localZone : Location) (bars : List ChartBar) :
    datesNonDecreasing (bars.map (pointOfBar localZone))
      ↔ List.Pairwise (fun a b => a ≤ b) (bars.map (fun b => b.Timestamp)) := by
  simp [datesNonDecreasing, List.pairwise_map, pointOfBar, timeUnix, Time.Unix]

theorem ne_nil_of_two_le_filter_length (bars : List ChartBar) (p : ChartBar → Bool)
    (h : 2 ≤ (bars.filter p).length) : bars ≠ [] := by
  intro hnil
  simp [hnil] at h

/-- Against C3 as stated: two valid bars yielded later day first, no source
error, and the series returned has decreasing dates. -/
theorem fetchStockData_dates_counterexample :
    (reversedSource ⟨"AAPL", "1d"⟩).err = none ∧
    ((reversedSource ⟨"AAPL", "1d"⟩).bars.filter (fun b => convertible b.Close)).length = 2 ∧
    ∃ data, fetchStockData reversedSource utc "AAPL" = (some data, none) ∧
      ¬ datesNonDecreasing data := by
  refine ⟨rfl, by decide!, _, fetchStockData_of_no_error reversedSource utc "AAPL" rfl ?_, ?_⟩
  · simp [reversedSource]
  · rw [datesNonDecreasing_map_pointOfBar]
    simp [reversedSource]

/-- C3 (amended). A source that yields at least two valid bars and ends
without error makes `fetchStockData` return a series with one point per bar
yielded, in source order, each carrying its bar's timestamp: the length is
the number of bars yielded (the number of convertible bars when all are
convertible), and the dates are non-decreasing exactly when the timestamps
the source yields are. -/
theorem fetchStockData_series_in_source_order {ε : Type} (chartGet : Params → Iter ε)
    (localZone : Location) (symbol : String)
    (herr : (chartGet ⟨symbol, "1d"⟩).err = none)
    (hvalid : 2 ≤ ((chartGet ⟨symbol, "1d"⟩).bars.filter (fun b => convertible b.Close)).length) :
    ∃ data, fetchStockData chartGet localZone symbol = (some data, none) ∧
      data.length = (chartGet ⟨symbol, "1d"⟩).bars.length ∧
      data.map (fun d => d.Date.Unix) = (chartGet ⟨symbol, "1d"⟩).bars.map (fun b => b.Timestamp) ∧
      (datesNonDecreasing data ↔
        List.Pairwise (fun a b => a ≤ b)
          ((chartGet ⟨symbol, "1d"⟩).bars.map (fun b => b.Timestamp))) ∧
      ((∀ b ∈ (chartGet ⟨symbol, "1d"⟩).bars, convertible b.Close = true) →
        data.length
          = ((chartGet ⟨symbol, "1d"⟩).bars.filter (fun b => convertible b.Close)).length) := by
  refine ⟨_, fetchStockData_of_no_error chartGet localZone symbol herr
    (ne_nil_of_two_le_filter_length _ _ hvalid), by simp, ?_,
    datesNonDecreasing_map_pointOfBar _ _, ?_⟩
  · simp [pointOfBar, timeUnix, Time.Unix, Function.comp_def]
  · intro hall
    have hf : (chartGet ⟨symbol, "1d"⟩).bars.filter (fun b => convertible b.Close)
        = (chartGet ⟨symbol, "1d"⟩).bars := List.filter_eq_self.mpr hall
    simp [hf]

/-- Two valid bars in chronological order give the two-point series with
their timestamps, dates non-decreasing. -/
theorem fetchStockData_series_in_source_order_witness :
    ∃ data, fetchStockData twoBarSource utc "TEST" = (some data, none) ∧
      data.length = 2 ∧
      data.map (fun d => d.Date.Unix) = [1704153600, 1704240000] ∧
      datesNonDecreasing data := by
  obtain ⟨data, h1, h2, h3, h4, _⟩ :=
    fetchStockData_series_in_source_order twoBarSource utc "TEST" rfl (by decide!)
  refine ⟨data, h1, h2, h3, h4.mpr ?_⟩
  simp [twoBarSource]

/-- Against C10 as stated: a close of `10^400` converts to `+Inf` with the
exactness flag off, and its bar is still in the series, which has three points for
three bars of which two are convertible. -/
theorem fetchStockData_drop_counterexample :
    convertible ⟨1, 400⟩ = false ∧
    Decimal.Float64 ⟨1, 400⟩ = (Float64.inf false, false) ∧
    (hugeCloseSource ⟨"AAPL", "1d"⟩).err = none ∧
    ((hugeCloseSource ⟨"AAPL", "1d"⟩).bars.filter (fun b => convertible b.Close)).length = 2 ∧
    ∃ data, fetchStockData hugeCloseSource utc "AAPL" = (some data, none) ∧
      data.length = 3 ∧
      data.map (fun d => d.Close) = [Float64.finite false 7045561861447598 (-46),
        Float64.inf false, Float64.finite false 7153286909003137 (-46)] := by
  refine ⟨by decide!, by decide!, rfl, by decide!, _,
    fetchStockData_of_no_error hugeCloseSource utc "AAPL" rfl ?_, rfl, ?_⟩
  · simp [hugeCloseSource]
  · decide!

/-- C10 (amended). For a source that ends without error, `fetchStockData`
drops no bar: every bar yielded, convertible or not, contributes exactly one
point, in source order, whose close is the first result of
`Decimal.Float64` (an infinity when the magnitude is beyond `float64`). -/
theorem fetchStockData_keeps_every_bar {ε : Type} (chartGet : Params → Iter ε)
    (localZone : Location) (symbol : String)
    (herr : (chartGet ⟨symbol, "1d"⟩).err = none)
    (hne : (chartGet ⟨symbol, "1d"⟩).bars ≠ []) :
    fetchStockData chartGet localZone symbol
      = (some ((chartGet ⟨symbol, "1d"⟩).bars.map
          (fun bar => { Date := timeUnix localZone bar.Timestamp,
                        Close := bar.Close.Float64.1 })), none) :=
  fetchStockData_of_no_error chartGet localZone symbol herr hne

/-- Three bars, one of them beyond `float64`: three points. -/
theorem fetchStockData_keeps_every_bar_witness :
    ((fetchStockData hugeCloseSource utc "AAPL").1.map List.length) = some 3 := by
  rw [fetchStockData_keeps_every_bar hugeCloseSource utc "AAPL" rfl (by simp [hugeCloseSource])]
  rfl

/-! ## Facts about the file system and the buffered writer -/

theorem FS.read_put_self {ε : Type} (fs : FS ε) (name : String) (bytes : List Nat) :
    (fs.put name bytes).read name = some bytes := by
  simp [FS.read, FS.put]

theorem FS.room_put {ε : Type} (fs : FS ε) (name : String) (bytes : List Nat) :
    (fs.put name bytes).room = fs.room := rfl

theorem Writer.Flush_inStep {ε : Type} (w : Writer ε) (fs : FS ε) (file : String)
    (content : List Nat) (h : InStep w fs file content) :
    InStep (w.Flush fs).1 (w.Flush fs).2 file content ∧ (w.Flush fs).1.buf = [] := by
  obtain ⟨wfile, wbuf, werr⟩ := w
  obtain ⟨hf, he, hr, pre, hpre, hc⟩ := h
  simp only at hf he hc
  subst hf he
  unfold Writer.Flush
  by_cases hb : wbuf.length = 0
  · have hnil : wbuf = [] := List.length_eq_zero.mp hb
    simp only [hb, if_true]
    exact ⟨⟨rfl, rfl, hr, pre, hpre, hc⟩, hnil⟩
  · have hw : fs.Write wfile wbuf = (fs.put wfile (pre ++ wbuf), wbuf.length, none) := by
      simp [FS.Write, hr, hpre]
    rw [if_neg hb, hw]
    refine ⟨⟨rfl, rfl, ?_, pre ++ wbuf, FS.read_put_self _ _ _, ?_⟩, rfl⟩
    · simpa [FS.room_put] using hr
    · simpa using hc

theorem Writer.writeLoop_inStep {ε : Type} (fuel : Nat) :
    ∀ (s : List Nat) (w : Writer ε) (fs : FS ε) (file : String) (content : List Nat),
      InStep w fs file content →
      s.length + 2 ≤ fuel + (if w.buf.length < bufSize then 1 else 0) →
      InStep (Writer.writeLoop fuel s w fs).1 (Writer.writeLoop fuel s w fs).2 file
        (content ++ s) := by
  induction fuel with
  | zero =>
    intro s w fs file content _ hfuel
    split at hfuel <;> omega
  | succ fuel ih =>
    intro s w fs file content h hfuel
    obtain ⟨wfile, wbuf, werr⟩ := w
    obtain ⟨hf, he, hr, pre, hpre, hc⟩ := h
    simp only at hf he hc hfuel
    subst hf he
    unfold Writer.writeLoop
    by_cases hbig : bufSize - wbuf.length < s.length
    · rw [if_pos ⟨hbig, rfl⟩]
      have h2 : InStep (Writer.mk wfile (wbuf ++ s.take (bufSize - wbuf.length)) none) fs wfile
          (content ++ s.take (bufSize - wbuf.length)) :=
        ⟨rfl, rfl, hr, pre, hpre, by simp [← hc]⟩
      obtain ⟨h3, hnil⟩ := Writer.Flush_inStep _ fs wfile _ h2
      have h4 := ih (s.drop (bufSize - wbuf.length)) _ _ wfile _ h3 (by
        rw [hnil]
        simp only [List.length_nil, List.length_drop]
        have : (0 : Nat) < bufSize := by decide
        simp only [this, if_true]
        split at hfuel <;> omega)
      simpa [List.append_assoc] using h4
    · rw [if_neg (fun hh => hbig hh.1), if_neg (by simp)]
      exact ⟨rfl, rfl, hr, pre, hpre, by simp [← hc]⟩

theorem Writer.WriteString_inStep {ε : Type} (w : Writer ε) (fs : FS ε) (file : String)
    (content s : List Nat) (h : InStep w fs file content) :
    InStep (w.WriteString fs s).1 (w.WriteString fs s).2 file (content ++ s) := by
  unfold Writer.WriteString
  exact Writer.writeLoop_inStep _ s w fs file content h (by split <;> omega)

theorem writeRows_inStep {ε : Type} (data : List StockData) :
    ∀ (w : Writer ε) (fs : FS ε) (file : String) (content : List Nat),
      InStep w fs file content →
      InStep (writeRows data w fs).1 (writeRows data w fs).2 file
        (content ++ (data.map (fun d =>
          utf8 (String.mk (csvRecord [d.Date.Format, sprintfF d.Close])))).flatten) := by
  induction data with
  | nil => intro w fs file content h; simpa [writeRows] using h
  | cons d rest ih =>
    intro w fs file content h
    have h1 := Writer.WriteString_inStep w fs file content
      (utf8 (String.mk (csvRecord [d.Date.Format, sprintfF d.Close]))) h
    have h2 := ih _ _ file _ h1
    simpa [writeRows, Writer.Write, List.append_assoc] using h2

/-- With no failing call, `saveToCSV` leaves in the file exactly the
records `csv.Writer.Write` emitted, header first. -/
theorem saveToCSV_content {ε : Type} (fs : FS ε) (symbol : String) (data : List StockData)
    (hroom : fs.room = none) (hcreate : fs.createErr (symbol ++ "_stock_data.csv") = none) :
    (saveToCSV fs symbol data).1.read (symbol ++ "_stock_data.csv")
      = some (utf8 (String.mk (csvRecord ["Date", "Close"])) ++
          (data.map (fun d =>
            utf8 (String.mk (csvRecord [d.Date.Format, sprintfF d.Close])))).flatten) := by
  have h0 : InStep (newWriter (symbol ++ "_stock_data.csv") : Writer ε)
      (fs.put (symbol ++ "_stock_data.csv") []) (symbol ++ "_stock_data.csv") [] :=
    ⟨rfl, rfl, hroom, [], FS.read_put_self _ _ _, rfl⟩
  have h1 := Writer.WriteString_inStep _ _ _ _
    (utf8 (String.mk (csvRecord ["Date", "Close"]))) h0
  have h2 := writeRows_inStep data _ _ _ _ h1
  obtain ⟨h3, hnil⟩ := Writer.Flush_inStep _ _ _ _ h2
  obtain ⟨_, _, _, pre, hpre, hc⟩ := h3
  rw [hnil, List.append_nil] at hc
  subst hc
  simpa [saveToCSV, FS.Create, hcreate, Writer.Write] using hpre

/-! ## The fields `saveToCSV` writes need no quoting -/

theorem isDigitChar_digitChar (d : Nat) : isDigitChar (digitChar d) = true := by
  have h : d % 10 < 10 := Nat.mod_lt _ (by decide)
  unfold digitChar
  generalize d % 10 = k at h
  interval_cases k <;> decide

theorem plainChar_of_isDigitChar (c : Char) (h : isDigitChar c = true) : plainChar c = true := by
  simp only [isDigitChar, decide_eq_true_eq] at h
  simp [plainChar, h]

theorem isDigitChar_natDigitsAux (fuel : Nat) :
    ∀ (n : Nat), ∀ c ∈ natDigitsAux fuel n, isDigitChar c = true := by
  induction fuel with
  | zero => intro n c hc; simp [natDigitsAux] at hc
  | succ fuel ih =>
    intro n c hc
    unfold natDigitsAux at hc
    split at hc
    · simp only [List.mem_singleton] at hc
      subst hc
      exact isDigitChar_digitChar n
    · rcases List.mem_append.mp hc with h | h
      · exact ih _ c h
      · simp only [List.mem_singleton] at h
        subst h
        exact isDigitChar_digitChar n

theorem isDigitChar_natDigits (n : Nat) : ∀ c ∈ natDigits n, isDigitChar c = true :=
  isDigitChar_natDigitsAux _ n

theorem isDigitChar_zeroPad (width : Nat) (ds : List Char)
    (h : ∀ c ∈ ds, isDigitChar c = true) : ∀ c ∈ zeroPad width ds, isDigitChar c = true := by
  intro c hc
  rcases List.mem_append.mp hc with h1 | h1
  · rw [(List.mem_replicate.mp h1).2]
    decide
  · exact h c h1

theorem plainChar_appendInt (x : Int) (width : Nat) :
    ∀ c ∈ appendInt x width, plainChar c = true := by
  intro c hc
  rcases List.mem_append.mp hc with h1 | h1
  · split at h1
    · simp only [List.mem_singleton] at h1
      subst h1
      decide
    · simp at h1
  · exact plainChar_of_isDigitChar c
      (isDigitChar_zeroPad width _ (isDigitChar_natDigits _) c h1)

theorem plainChar_Format (t : Time) : ∀ c ∈ t.Format.data, plainChar c = true := by
  intro c hc
  simp only [Time.Format, List.mem_append, List.mem_singleton] at hc
  rcases hc with (((h | h) | h) | h) | h
  · exact plainChar_appendInt _ _ c h
  · subst h; decide
  · exact plainChar_appendInt _ _ c h
  · subst h; decide
  · exact plainChar_appendInt _ _ c h

theorem plainChar_sprintfF (f : Float64) : ∀ c ∈ (sprintfF f).data, plainChar c = true := by
  intro c hc
  cases f with
  | nan =>
    simp only [sprintfF] at hc
    revert c
    decide
  | inf neg =>
    cases neg <;>
    · simp only [sprintfF] at hc
      revert c
      decide
  | finite neg m e =>
    simp only [sprintfF, List.mem_append, List.mem_singleton] at hc
    rcases hc with ((h | h) | h) | h
    · split at h
      · simp only [List.mem_singleton] at h
        subst h; decide
      · simp at h
    · exact plainChar_of_isDigitChar c (isDigitChar_natDigits _ c h)
    · subst h; decide
    · exact plainChar_of_isDigitChar c
        (isDigitChar_zeroPad 6 _ (isDigitChar_natDigits _) c h)

theorem not_special_of_plainChar (c : Char) (h : plainChar c = true) :
    c ≠ '\n' ∧ c ≠ '\r' ∧ c ≠ '"' ∧ c ≠ ',' ∧ c ≠ '\\' ∧ isSpace c = false := by
  simp only [plainChar, Bool.decide_or, Bool.decide_and, Bool.or_eq_true, Bool.and_eq_true,
    decide_eq_true_eq] at h
  refine ⟨?_, ?_, ?_, ?_, ?_, ?_⟩
  · rintro rfl; revert h; decide
  · rintro rfl; revert h; decide
  · rintro rfl; revert h; decide
  · rintro rfl; revert h; decide
  · rintro rfl; revert h; decide
  · simp only [isSpace, Bool.decide_or, Bool.decide_and, Bool.or_eq_false_iff,
      Bool.and_eq_false_imp, decide_eq_true_eq, decide_eq_false_iff_not]
    omega

theorem fieldNeedsQuotes_of_plain (field : String)
    (h : ∀ c ∈ field.data, plainChar c = true) : fieldNeedsQuotes field = false := by
  unfold fieldNeedsQuotes
  by_cases h0 : field.data = []
  · simp [h0]
  · rw [if_neg h0]
    have h1 : field.data ≠ ['\\', '.'] := by
      intro heq
      have := (not_special_of_plainChar '\\' (h _ (by simp [heq]))).2.2.2.2.1
      exact this rfl
    rw [if_neg h1]
    have h2 : field.data.any (fun c => decide (c = '\n' ∨ c = '\r' ∨ c = '"' ∨ c = ',')) = false := by
      rw [List.any_eq_false]
      intro c hc
      have := not_special_of_plainChar c (h c hc)
      simp [this.1, this.2.1, this.2.2.1, this.2.2.2.1]
    rw [h2]
    simp only [Bool.false_eq_true, if_false]
    obtain ⟨c, rest, hcr⟩ := List.exists_cons_of_ne_nil h0
    rw [hcr]
    exact (not_special_of_plainChar c (h c (by simp [hcr]))).2.2.2.2.2

theorem csvRecord_date_close (d : StockData) :
    String.mk (csvRecord [d.Date.Format, sprintfF d.Close])
      = d.Date.Format ++ "," ++ sprintfF d.Close ++ "\n" := by
  apply String.ext
  simp [csvRecord, csvRest, csvField, fieldNeedsQuotes_of_plain _ (plainChar_Format _),
    fieldNeedsQuotes_of_plain _ (plainChar_sprintfF _)]

theorem utf8_append (a b : String) : utf8 (a ++ b) = utf8 a ++ utf8 b := by
  simp [utf8]

theorem foldl_append_data (l : List String) :
    ∀ a : String, (List.foldl (fun r s => r ++ s) a l).data
      = a.data ++ (l.map String.data).flatten := by
  induction l with
  | nil => intro a; simp
  | cons b rest ih => intro a; simp [ih, List.append_assoc]

theorem utf8_join (l : List String) : utf8 (String.join l) = (l.map utf8).flatten := by
  have h : (String.join l).data = (l.map String.data).flatten := by
    simpa [String.join] using foldl_append_data l ""
  unfold utf8
  rw [h]
  induction l with
  | nil => rfl
  | cons a rest ih =>
    simp only [List.map_cons, List.flatten_cons, List.flatMap_append]
    rw [ih (by simpa [String.join] using foldl_append_data rest "")]

theorem csvRecord_header : String.mk (csvRecord ["Date", "Close"]) = "Date,Close\n" := by
  decide!

theorem utf8_csvText (data : List StockData) :
    utf8 (csvText data)
      = utf8 (String.mk (csvRecord ["Date", "Close"])) ++
        (data.map (fun d =>
          utf8 (String.mk (csvRecord [d.Date.Format, sprintfF d.Close])))).flatten := by
  unfold csvText
  rw [utf8_append, utf8_join, List.map_map, csvRecord_header]
  have h : (utf8 ∘ fun d : StockData => d.Date.Format ++ "," ++ sprintfF d.Close ++ "\n")
      = fun d => utf8 (String.mk (csvRecord [d.Date.Format, sprintfF d.Close])) := by
    funext d
    simp only [Function.comp_apply, csvRecord_date_close]
  rw [h]

/-! ## Facts about `saveToCSV` -/

theorem natDigitsAux_length_le (fuel : Nat) :
    ∀ (n k : Nat), n < 10 ^ (k + 1) → (natDigitsAux fuel n).length ≤ k + 1 := by
  induction fuel with
  | zero => intro n k _; simp [natDigitsAux]
  | succ fuel ih =>
    intro n k hn
    unfold natDigitsAux
    split
    · simp
    · rename_i h10
      cases k with
      | zero => simp at hn; omega
      | succ k =>
        have hdiv : n / 10 < 10 ^ (k + 1) := by
          apply Nat.div_lt_of_lt_mul
          rw [pow_succ] at hn
          omega
        have := ih (n / 10) k hdiv
        simp only [List.length_append, List.length_singleton]
        omega

theorem natDigitsAux_ne_nil (fuel n : Nat) : natDigitsAux (fuel + 1) n ≠ [] := by
  unfold natDigitsAux
  split <;> simp

theorem zeroPad_length_six (n : Nat) : (zeroPad 6 (natDigits (n % 10 ^ 6))).length = 6 := by
  have h : (natDigits (n % 10 ^ 6)).length ≤ 6 :=
    natDigitsAux_length_le _ (n % 10 ^ 6) 5 (Nat.mod_lt _ (by norm_num))
  simp only [zeroPad, List.length_append, List.length_replicate]
  omega

theorem sprintfF_finite_shape (neg : Bool) (m : Nat) (e : Int) :
    ∃ ip fp : List Char,
      sprintfF (Float64.finite neg m e)
        = String.mk ((if neg then ['-'] else []) ++ ip ++ ['.'] ++ fp) ∧
      ip ≠ [] ∧ fp.length = 6 ∧
      (∀ c ∈ ip, isDigitChar c = true) ∧ (∀ c ∈ fp, isDigitChar c = true) :=
  ⟨_, _, rfl, natDigitsAux_ne_nil _ _, zeroPad_length_six _, isDigitChar_natDigits _,
    isDigitChar_zeroPad 6 _ (isDigitChar_natDigits _)⟩

theorem appendInt_shape (x : Int) (k : Nat) (h0 : 0 ≤ x) (hk : x < 10 ^ (k + 1)) :
    (appendInt x (k + 1)).length = k + 1 ∧ ∀ c ∈ appendInt x (k + 1), isDigitChar c = true := by
  have hlen : (natDigits x.natAbs).length ≤ k + 1 := by
    apply natDigitsAux_length_le
    zify
    rw [abs_of_nonneg h0]
    exact hk
  have hx : ¬ x < 0 := by omega
  simp only [appendInt, if_neg hx, List.nil_append]
  refine ⟨?_, isDigitChar_zeroPad _ _ (isDigitChar_natDigits _)⟩
  simp only [zeroPad, List.length_append, List.length_replicate]
  omega

theorem Format_shape (t : Time) (h0 : 0 ≤ t.Date.1) (h1 : t.Date.1 ≤ 9999) :
    ∃ y m d : List Char, t.Format = String.mk (y ++ ['-'] ++ m ++ ['-'] ++ d) ∧
      y.length = 4 ∧ m.length = 2 ∧ d.length = 2 ∧
      ∀ c ∈ y ++ m ++ d, isDigitChar c = true := by
  obtain ⟨hm1, hm2, hd1, hd2⟩ := civilFromDays_month_day ((t.unix + t.loc.lookup t.unix) / 86400)
  have hy := appendInt_shape t.Date.1 3 h0 (by norm_num; omega)
  have hm := appendInt_shape t.Date.2.1 1 (by unfold Time.Date; omega)
    (by unfold Time.Date; norm_num; omega)
  have hd := appendInt_shape t.Date.2.2 1 (by unfold Time.Date; omega)
    (by unfold Time.Date; norm_num; omega)
  refine ⟨_, _, _, rfl, hy.1, hm.1, hd.1, ?_⟩
  intro c hc
  rcases List.mem_append.mp hc with h | h
  · rcases List.mem_append.mp h with h | h
    · exact hy.2 c h
    · exact hm.2 c h
  · exact hd.2 c h

theorem saveToCSV_error {ε : Type} (fs : FS ε) (symbol : String) (data : List StockData) :
    (saveToCSV fs symbol data).2 = (fs.createErr (symbol ++ "_stock_data.csv")).map GoError.ext := by
  unfold saveToCSV FS.Create
  cases h : fs.createErr (symbol ++ "_stock_data.csv") <;> simp [h]

/-- Against C4 as stated: the series `fetchStockData` builds from three bars
whose middle close is `10^400` is written with the line `2024-01-03,+Inf`,
a close with no fractional digit at all; and a point dated in the year 10000
is written with a five-digit year. -/
theorem saveToCSV_format_counterexample :
    fetchStockData hugeCloseSource utc "AAPL" = (some infCloseSeries, none) ∧
    (saveToCSV emptyFS "AAPL" infCloseSeries).1.read "AAPL_stock_data.csv"
      = some (utf8
          "Date,Close\n2024-01-02,100.123456\n2024-01-03,+Inf\n2024-01-04,101.654321\n") ∧
    (¬ ∃ sign ip fp : List Char,
      sprintfF (Float64.inf false) = String.mk (sign ++ ip ++ ['.'] ++ fp) ∧ fp.length = 6) ∧
    (saveToCSV emptyFS "FAR" farDateSeries).1.read "FAR_stock_data.csv"
      = some (utf8 "Date,Close\n10000-01-01,1.000000\n") := by
  refine ⟨fetchStockData_of_no_error hugeCloseSource utc "AAPL" rfl
    (by simp [hugeCloseSource]), by decide!, ?_, by decide!⟩
  rintro ⟨sign, ip, fp, h, _⟩
  have hdot : '.' ∈ (sprintfF (Float64.inf false)).data := by
    rw [h]
    simp
  revert hdot
  decide

/-- C4 (amended). On a file system where no call fails, `saveToCSV` returns
nil and leaves in `<symbol>_stock_data.csv` exactly the header `Date,Close`
followed by one line per point in series order, made of the date in the
layout `2006-01-02`, a comma and the close printed with `%f`.  A date in the
years 0 to 9999 prints as four digits, a dash, two digits, a dash, two
digits; `%f` of a finite close is an optional minus sign, a non-empty run of
digits, a point and exactly six digits; and the scenario series gives the
three lines of the specification. -/
theorem saveToCSV_writes_table :
    (∀ (ε : Type) (fs : FS ε) (symbol : String) (data : List StockData),
      fs.room = none → fs.createErr (symbol ++ "_stock_data.csv") = none →
      (saveToCSV fs symbol data).1.read (symbol ++ "_stock_data.csv")
          = some (utf8 (csvText data)) ∧
        (saveToCSV fs symbol data).2 = none) ∧
    (∀ t : Time, 0 ≤ t.Date.1 → t.Date.1 ≤ 9999 →
      ∃ y m d : List Char, t.Format = String.mk (y ++ ['-'] ++ m ++ ['-'] ++ d) ∧
        y.length = 4 ∧ m.length = 2 ∧ d.length = 2 ∧
        ∀ c ∈ y ++ m ++ d, isDigitChar c = true) ∧
    (∀ (neg : Bool) (m : Nat) (e : Int), ∃ ip fp : List Char,
      sprintfF (Float64.finite neg m e)
        = String.mk ((if neg then ['-'] else []) ++ ip ++ ['.'] ++ fp) ∧
      ip ≠ [] ∧ fp.length = 6 ∧
      (∀ c ∈ ip, isDigitChar c = true) ∧ (∀ c ∈ fp, isDigitChar c = true)) ∧
    csvText scenarioSeries = "Date,Close\n2024-01-02,100.123456\n2024-01-03,101.654321\n" := by
  refine ⟨?_, Format_shape, sprintfF_finite_shape, by decide!⟩
  intro ε fs symbol data hroom hcreate
  refine ⟨?_, ?_⟩
  · rw [saveToCSV_content fs symbol data hroom hcreate, utf8_csvText]
  · rw [saveToCSV_error, hcreate]
    rfl

/-- The scenario series on an empty file system: the file holds the three
lines of the specification. -/
theorem saveToCSV_writes_table_witness :
    (saveToCSV emptyFS "TEST" scenarioSeries).1.read "TEST_stock_data.csv"
      = some (utf8 "Date,Close\n2024-01-02,100.123456\n2024-01-03,101.654321\n") := by
  have h := (saveToCSV_writes_table.1 String emptyFS "TEST" scenarioSeries rfl rfl).1
  rw [saveToCSV_writes_table.2.2.2] at h
  exact h

/-- C5, on a full device. Every write of `saveToCSV` fails (the file stays
empty, not even the header reaches it) and the function still returns nil;
in general its result is the error of `os.Create` and nothing else. -/
theorem saveToCSV_write_failure_returns_nil :
    (∀ (ε : Type) (fs : FS ε) (symbol : String) (data : List StockData),
      (saveToCSV fs symbol data).2
        = (fs.createErr (symbol ++ "_stock_data.csv")).map GoError.ext) ∧
    (fullFS.Write "TEST_stock_data.csv" (utf8 "Date,Close\n")).2.2
      = some "no space left on device" ∧
    (saveToCSV fullFS "TEST" scenarioSeries).2 = none ∧
    (saveToCSV fullFS "TEST" scenarioSeries).1.read "TEST_stock_data.csv" = some [] := by
  refine ⟨fun ε fs symbol data => saveToCSV_error fs symbol data, by decide!, ?_, by decide!⟩
  rw [saveToCSV_error]
  rfl

/-! ## Facts about the dates -/

theorem Format_timeUnix (localZone : Location) (sec : Int) :
    (timeUnix localZone sec).Format = utcDateString (sec + localZone.lookup sec) := by
  simp [utcDateString, Time.Format, Time.Date, Time.UTC, timeUnix, utc]

/-- Against C8 as stated: with the local zone five hours west of UTC, the
bars stamped 2024-01-02 and 2024-01-03 at 00:00 UTC get the dates 2024-01-01
and 2024-01-02, in the series and in the CSV file. -/
theorem fetchStockData_utc_date_counterexample :
    (∃ data, fetchStockData twoBarSource (fixedZone (-18000)) "TEST" = (some data, none) ∧
      data.map (fun d => d.Date.Format) = ["2024-01-01", "2024-01-02"] ∧
      (saveToCSV emptyFS "TEST" data).1.read "TEST_stock_data.csv"
        = some (utf8 "Date,Close\n2024-01-01,100.123456\n2024-01-02,101.654321\n")) ∧
    (twoBarSource ⟨"TEST", "1d"⟩).bars.map (fun b => utcDateString b.Timestamp)
      = ["2024-01-02", "2024-01-03"] := by
  refine ⟨⟨_, fetchStockData_of_no_error twoBarSource (fixedZone (-18000)) "TEST" rfl
    (by simp [twoBarSource]), by decide!, by decide!⟩, by decide!⟩

/-- C8 (amended). The date of every point `fetchStockData` produces, as
`saveToCSV` prints it, is the calendar date of the bar's timestamp in the
process's local time zone: the `YYYY-MM-DD` string is the UTC date of the
timestamp plus the local offset in force at that instant, hence the UTC date
of the timestamp wherever that offset is zero. -/
theorem fetchStockData_date_is_local_date {ε : Type} (chartGet : Params → Iter ε)
    (localZone : Location) (symbol : String)
    (herr : (chartGet ⟨symbol, "1d"⟩).err = none)
    (hne : (chartGet ⟨symbol, "1d"⟩).bars ≠ []) :
    ∃ data, fetchStockData chartGet localZone symbol = (some data, none) ∧
      data.map (fun d => d.Date.Format)
        = (chartGet ⟨symbol, "1d"⟩).bars.map
            (fun b => utcDateString (b.Timestamp + localZone.lookup b.Timestamp)) ∧
      ((∀ b ∈ (chartGet ⟨symbol, "1d"⟩).bars, localZone.lookup b.Timestamp = 0) →
        data.map (fun d => d.Date.Format)
          = (chartGet ⟨symbol, "1d"⟩).bars.map (fun b => utcDateString b.Timestamp)) := by
  have hmap : ((chartGet ⟨symbol, "1d"⟩).bars.map (pointOfBar localZone)).map
      (fun d => d.Date.Format)
      = (chartGet ⟨symbol, "1d"⟩).bars.map
          (fun b => utcDateString (b.Timestamp + localZone.lookup b.Timestamp)) := by
    rw [List.map_map]
    apply List.map_congr_left
    intro b _
    simp [pointOfBar, Format_timeUnix]
  refine ⟨_, fetchStockData_of_no_error chartGet localZone symbol herr hne, hmap, ?_⟩
  intro hzero
  rw [hmap]
  apply List.map_congr_left
  intro b hb
  simp [hzero b hb]

/-- One hour east of UTC: the dates are those of the timestamps moved by
3600 seconds. -/
theorem fetchStockData_date_is_local_date_witness :
    ∃ data, fetchStockData twoBarSource (fixedZone 3600) "TEST" = (some data, none) ∧
      data.map (fun d => d.Date.Format)
        = [utcDateString (1704153600 + 3600), utcDateString (1704240000 + 3600)] := by
  obtain ⟨data, h1, h2, _⟩ := fetchStockData_date_is_local_date twoBarSource (fixedZone 3600)
    "TEST" rfl (by simp [twoBarSource])
  exact ⟨data, h1, h2⟩

/-! ## Facts about `plotStockData` -/

theorem FS.hasFile_Remove {ε : Type} (fs : FS ε) (name : String) :
    (fs.Remove name).hasFile name = false := by
  simp only [FS.hasFile, FS.read, FS.Remove, Option.isSome_map']
  rw [Bool.eq_false_iff]
  intro h
  obtain ⟨x, hx⟩ := Option.isSome_iff_exists.mp h
  have h1 := List.find?_some hx
  have h2 := List.mem_of_find?_eq_some hx
  simp only [List.mem_filter, Bool.not_eq_true', beq_eq_false_iff_ne, ne_eq] at h2
  exact h2.2 (by simpa using h1)

theorem plotStockData_renders {ε ι : Type} (eng : Engine ε ι) (fs : FS ε) (symbol : String)
    (data : List StockData) (img : ι)
    (hfin : ∀ d ∈ data, (float64OfInt d.Date.Unix).isFinite = true ∧ d.Close.isFinite = true)
    (hroom : fs.room = none)
    (hcreate : fs.createErr (symbol ++ "_stock_plot.png") = none)
    (hopen : fs.openErr (symbol ++ "_stock_plot.png") = none)
    (hdecode : eng.decode (eng.draw (stockPlot symbol data) 8 4) = Except.ok img) :
    (plotStockData eng fs symbol data).2 = (some img, none) ∧
    (plotStockData eng fs symbol data).1.hasFile (symbol ++ "_stock_plot.png") = false := by
  have hany : (data.map (fun d => (float64OfInt d.Date.Unix, d.Close))).any
      (fun xy => !xy.1.isFinite || !xy.2.isFinite) = false := by
    rw [List.any_eq_false]
    intro xy hxy
    obtain ⟨d, hd, rfl⟩ := List.mem_map.mp hxy
    simp [hfin d hd]
  have hadd : addLinePoints eng
      { Title := symbol ++ " Stock Price", XLabel := "Date", YLabel := "Price (USD)",
        lines := [], xTimeTicks := none }
      (symbol ++ " Closing Price") (data.map (fun d => (float64OfInt d.Date.Unix, d.Close)))
      = Except.ok { Title := symbol ++ " Stock Price", XLabel := "Date",
                    YLabel := "Price (USD)",
                    lines := [(symbol ++ " Closing Price",
                      data.map (fun d => (float64OfInt d.Date.Unix, d.Close)))],
                    xTimeTicks := none } := by
    unfold addLinePoints
    rw [hany]
    simp
  have hsave : Plot.Save eng (stockPlot symbol data) fs 8 4 (symbol ++ "_stock_plot.png")
      = ((fs.put (symbol ++ "_stock_plot.png") []).put (symbol ++ "_stock_plot.png")
          (eng.draw (stockPlot symbol data) 8 4), none) := by
    have hr : (fs.put (symbol ++ "_stock_plot.png") []).room = none := hroom
    simp [Plot.Save, FS.Create, hcreate, FS.Write, hr, FS.read_put_self]
  have hopen2 : ((fs.put (symbol ++ "_stock_plot.png") []).put (symbol ++ "_stock_plot.png")
      (eng.draw (stockPlot symbol data) 8 4)).Open eng.noFile (symbol ++ "_stock_plot.png")
      = none := by
    have : ((fs.put (symbol ++ "_stock_plot.png") []).put (symbol ++ "_stock_plot.png")
        (eng.draw (stockPlot symbol data) 8 4)).openErr = fs.openErr := rfl
    simp [FS.Open, this, hopen, FS.hasFile, FS.read_put_self]
  simp only [stockPlot] at hsave hopen2 hdecode
  unfold plotStockData
  simp only [hadd, hsave, hopen2, FS.read_put_self, Option.getD_some, hdecode]
  exact ⟨trivial, FS.hasFile_Remove _ _⟩

/-- Against C6 as stated: a series of one point is rendered and an image
comes back with a nil error. -/
theorem plotStockData_one_point_counterexample :
    onePointSeries.length = 1 ∧
    (plotStockData sampleEngine emptyFS "AAPL" onePointSeries).2 = (some [8, 4, 1], none) := by
  decide!

/-- C6 (amended). `plotStockData` has no length check and no
insufficient-data error: every series of finite points, whatever its length,
the empty series and the series of one point included, is handed to the
engine and saved, and when saving, opening and decoding succeed the decoded
image is returned with a nil error. -/
theorem plotStockData_no_length_check (ε ι : Type) (eng : Engine ε ι) (fs : FS ε)
    (symbol : String) (data : List StockData) (img : ι)
    (hfin : ∀ d ∈ data, (float64OfInt d.Date.Unix).isFinite = true ∧ d.Close.isFinite = true)
    (hroom : fs.room = none)
    (hcreate : fs.createErr (symbol ++ "_stock_plot.png") = none)
    (hopen : fs.openErr (symbol ++ "_stock_plot.png") = none)
    (hdecode : eng.decode (eng.draw (stockPlot symbol data) 8 4) = Except.ok img) :
    (plotStockData eng fs symbol data).2 = (some img, none) :=
  (plotStockData_renders eng fs symbol data img hfin hroom hcreate hopen hdecode).1

/-- A one-point series and the empty series on an empty file system with the
stand-in engine: each time the decoded image is returned. -/
theorem plotStockData_no_length_check_witness :
    (plotStockData sampleEngine emptyFS "TEST" onePointSeries).2 = (some [8, 4, 1], none) ∧
    (plotStockData sampleEngine emptyFS "TEST" []).2 = (some [8, 4, 0], none) :=
  ⟨plotStockData_no_length_check String (List Nat) sampleEngine emptyFS "TEST" onePointSeries
      [8, 4, 1] (by decide!) rfl rfl rfl rfl,
   plotStockData_no_length_check String (List Nat) sampleEngine emptyFS "TEST" []
      [8, 4, 0] (by simp) rfl rfl rfl rfl⟩

/-- C7, where opening or decoding fails. With `os.Open` failing, and with a
decoder that rejects the file, `plotStockData` returns an error and no image
while `AAPL_stock_plot.png`, which it has just saved, is still there; only
the successful call removes it. -/
theorem plotStockData_leaves_file_on_failure :
    emptyFS.hasFile "AAPL_stock_plot.png" = false ∧
    (plotStockData sampleEngine noOpenFS "AAPL" scenarioSeries).2
      = (none, some (GoError.ext "too many open files")) ∧
    (plotStockData sampleEngine noOpenFS "AAPL" scenarioSeries).1.hasFile
      "AAPL_stock_plot.png" = true ∧
    (plotStockData rejectingEngine emptyFS "AAPL" scenarioSeries).2
      = (none, some (GoError.ext "png: invalid format: not a PNG file")) ∧
    (plotStockData rejectingEngine emptyFS "AAPL" scenarioSeries).1.hasFile
      "AAPL_stock_plot.png" = true ∧
    (plotStockData sampleEngine emptyFS "AAPL" scenarioSeries).2 = (some [8, 4, 2], none) ∧
    (plotStockData sampleEngine emptyFS "AAPL" scenarioSeries).1.hasFile
      "AAPL_stock_plot.png" = false := by
  decide!

/-! ## Facts about the blank image -/

theorem Painted.mono {img : RGBA} {done done2 : Nat → Prop} (h : Painted img done)
    (hd : ∀ j, j < 40000 → done2 j → done j) : Painted img done2 :=
  ⟨h.1, h.2.1, h.2.2.1, fun j hj hdj => h.2.2.2 j hj (hd j hj hdj)⟩

theorem Painted.Set {img : RGBA} {done : Nat → Prop} (h : Painted img done) (x y : Nat)
    (hx : x < 100) (hy : y < 100) :
    Painted (img.Set x y colorWhite) (fun j => done j ∨ (j / 400 = y ∧ j % 400 / 4 = x)) := by
  obtain ⟨hs, hr, hl, hp⟩ := h
  have hc : img.Rect.contains x y = true := by
    rw [hr]
    simp [Rectangle.contains, imageRect]
    omega
  have hi : (img.PixOffset x y).toNat = y * 400 + x * 4 := by
    simp only [RGBA.PixOffset, hs, hr, imageRect]
    norm_num
    omega
  have hw : rgbaModelConvert colorWhite = ⟨255, 255, 255, 255⟩ := by decide
  unfold RGBA.Set
  rw [if_pos hc]
  simp only [hi, hw]
  refine ⟨hs, hr, by simp [hl], ?_⟩
  intro j hj hdj
  simp only [List.getElem?_set, List.length_set, hl]
  by_cases h3 : y * 400 + x * 4 + 3 = j
  · rw [if_pos h3, if_pos (by omega)]
  · rw [if_neg h3]
    by_cases h2 : y * 400 + x * 4 + 2 = j
    · rw [if_pos h2, if_pos (by omega)]
    · rw [if_neg h2]
      by_cases h1 : y * 400 + x * 4 + 1 = j
      · rw [if_pos h1, if_pos (by omega)]
      · rw [if_neg h1]
        by_cases h0 : y * 400 + x * 4 = j
        · rw [if_pos h0, if_pos (by omega)]
        · rw [if_neg h0]
          rcases hdj with hdj | hdj
          · exact hp j hj hdj
          · omega

theorem Painted.fillColumnTo {img : RGBA} {done : Nat → Prop} (h : Painted img done) (x : Nat)
    (hx : x < 100) (k : Nat) (hk : k ≤ 100) :
    Painted ((List.range k).foldl (fun im (y : Nat) => im.Set x y colorWhite) img)
      (fun j => done j ∨ (j / 400 < k ∧ j % 400 / 4 = x)) := by
  induction k with
  | zero =>
    simp only [List.range_zero, List.foldl_nil]
    exact h.mono (fun j _ hj => by rcases hj with hj | hj; exact hj; omega)
  | succ k ih =>
    rw [List.range_succ, List.foldl_append]
    simp only [List.foldl_cons, List.foldl_nil]
    refine ((ih (by omega)).Set x k hx (by omega)).mono ?_
    intro j _ hj
    rcases hj with hj | hj
    · exact Or.inl (Or.inl hj)
    · by_cases hjk : j / 400 = k
      · exact Or.inr ⟨hjk, hj.2⟩
      · exact Or.inl (Or.inr ⟨by omega, hj.2⟩)

theorem Painted.fillWhiteTo {img : RGBA} (h : Painted img (fun _ => False)) (k : Nat)
    (hk : k ≤ 100) :
    Painted ((List.range k).foldl (fillColumn 100) img) (fun j => j % 400 / 4 < k) := by
  induction k with
  | zero =>
    simp only [List.range_zero, List.foldl_nil]
    exact h.mono (fun j _ hj => by omega)
  | succ k ih =>
    rw [List.range_succ, List.foldl_append]
    simp only [List.foldl_cons, List.foldl_nil]
    refine ((ih (by omega)).fillColumnTo k (by omega) 100 (le_refl _)).mono ?_
    intro j hlt hj
    by_cases hjk : j % 400 / 4 = k
    · exact Or.inr ⟨by omega, hjk⟩
    · exact Or.inl (by omega)

theorem Painted.newImage : Painted (NewRGBA (imageRect 0 0 100 100)) (fun _ => False) :=
  ⟨by decide, rfl, by
    show (List.replicate (4 * (imageRect 0 0 100 100).Dx * (imageRect 0 0 100 100).Dy).toNat
      0).length = 40000
    rw [List.length_replicate]
    decide, fun _ _ h => h.elim⟩

theorem createBlankImage_painted : Painted createBlankImage (fun _ => True) :=
  (Painted.newImage.fillWhiteTo 100 (le_refl _)).mono (fun j hj _ => by omega)

theorem createBlankImage_Pix : createBlankImage.Pix = List.replicate 40000 255 := by
  obtain ⟨_, _, hl, hp⟩ := createBlankImage_painted
  rw [List.eq_replicate_iff]
  refine ⟨hl, ?_⟩
  intro b hb
  obtain ⟨n, hn⟩ := List.mem_iff_getElem?.mp hb
  have hlt : n < 40000 := by
    rw [← hl]
    exact (List.getElem?_eq_some_iff.mp hn).1
  have := hp n hlt trivial
  rw [hn] at this
  exact Option.some.inj this

theorem createBlankImage_RGBAAt (x y : Fin 100) :
    createBlankImage.RGBAAt x y = rgbaModelConvert colorWhite := by
  obtain ⟨hs, hr, _, _⟩ := createBlankImage_painted
  have hx := x.isLt
  have hy := y.isLt
  have hc : createBlankImage.Rect.contains x y = true := by
    rw [hr]
    simp [Rectangle.contains, imageRect]
  have hi : (createBlankImage.PixOffset x y).toNat = y * 400 + x * 4 := by
    simp only [RGBA.PixOffset, hs, hr, imageRect]
    norm_num
    omega
  have hget : ∀ i, i < 40000 → createBlankImage.Pix.getD i 0 = 255 := by
    intro i hi
    rw [createBlankImage_Pix, List.getD_eq_getElem?_getD, List.getElem?_replicate, if_pos hi]
    rfl
  unfold RGBA.RGBAAt
  rw [if_pos hc]
  simp only [hi]
  rw [hget _ (by omega), hget _ (by omega), hget _ (by omega), hget _ (by omega)]
  decide

/-- Against C9 as stated: asked for 50 by 50, the raster is not 50 by 50,
since no size can be passed. -/
theorem createBlankImage_size_counterexample :
    ¬ (createBlankImage.Rect.Dx = 50 ∧ createBlankImage.Rect.Dy = 50) := by
  rw [createBlankImage_painted.2.1]
  decide

/-- C9 (amended). `createBlankPNG` takes no dimensions: it always builds a
raster with bounds `(0,0)-(100,100)`, 100 wide and 100 high, in which every
byte is 255, so every pixel is white, and returns the PNG encoding of that
raster. -/
theorem createBlankPNG_white_100 :
    createBlankImage.Rect = ⟨⟨0, 0⟩, ⟨100, 100⟩⟩ ∧
    createBlankImage.Rect.Dx = 100 ∧ createBlankImage.Rect.Dy = 100 ∧
    createBlankImage.Pix = List.replicate (4 * 100 * 100) 255 ∧
    (∀ x y : Fin 100, createBlankImage.RGBAAt x y = ⟨255, 255, 255, 255⟩) ∧
    (∀ encode : RGBA → List Nat, createBlankPNG encode = encode createBlankImage) := by
  have hr := createBlankImage_painted.2.1
  refine ⟨by rw [hr]; decide, by rw [hr]; decide, by rw [hr]; decide,
    createBlankImage_Pix, ?_, fun _ => rfl⟩
  intro x y
  rw [createBlankImage_RGBAAt]
  decide


end FetchStock
